import Mathlib

set_option maxHeartbeats 1000000
set_option maxRecDepth 2000

/-!
Verification development for the stock-analyzer core (`app.py`).

Machine floats are modelled by exact rationals extended with the IEEE
special values (`+inf`, `-inf`, `NaN`) that the indicator pipeline can
produce.  ℚ has no signed zero; in this pipeline a negative zero can only
appear as the rolling mean of losses, where it merely flips the sign of an
infinite RS and yields RSI = 100 either way, so the unsigned model is
behaviour-equivalent at the RSI output.
-/

/-- A pandas float value: finite rational, +inf, -inf, or NaN. -/
inductive FV where
  | fin (q : ℚ)
  | inf
  | negInf
  | nan
  deriving DecidableEq, Repr

/-- IEEE addition on `FV`. -/
def FV.add : FV → FV → FV
  | fin a, fin b => fin (a + b)
  | fin _, inf => inf
  | inf, fin _ => inf
  | inf, inf => inf
  | fin _, negInf => negInf
  | negInf, fin _ => negInf
  | negInf, negInf => negInf
  | _, _ => nan

/-- IEEE negation on `FV`. -/
def FV.neg : FV → FV
  | fin a => fin (-a)
  | inf => negInf
  | negInf => inf
  | nan => nan

/-- IEEE subtraction on `FV`. -/
def FV.sub (a b : FV) : FV := a.add b.neg

/-- IEEE division on `FV` (zero is unsigned, see the file header). -/
def FV.div : FV → FV → FV
  | fin a, fin b =>
      if b = 0 then (if 0 < a then inf else if a < 0 then negInf else nan)
      else fin (a / b)
  | fin _, inf => fin 0
  | fin _, negInf => fin 0
  | inf, fin b => if b < 0 then negInf else inf
  | negInf, fin b => if b < 0 then inf else negInf
  | _, _ => nan

/-- The comparison `v > 0` (false on NaN, as in numpy). -/
def FV.gtZero : FV → Bool
  | fin q => decide (0 < q)
  | inf => true
  | _ => false

/-- The comparison `v < 0` (false on NaN, as in numpy). -/
def FV.ltZero : FV → Bool
  | fin q => decide (q < 0)
  | negInf => true
  | _ => false

/-- `prices.diff()` at one index: NaN at position 0, successive differences after. -/
def diffAt (ps : List ℚ) : Nat → FV
  | 0 => FV.nan
  | i + 1 =>
    if i + 1 < ps.length then FV.fin (ps.getD (i + 1) 0 - ps.getD i 0) else FV.nan

/-- `delta.where(delta > 0, 0)` at one index (the gain series of `calculate_rsi`). -/
def gainAt (ps : List ℚ) (i : Nat) : FV :=
  if (diffAt ps i).gtZero then diffAt ps i else FV.fin 0

/-- `-delta.where(delta < 0, 0)` at one index (the loss series of `calculate_rsi`). -/
def lossAt (ps : List ℚ) (i : Nat) : FV :=
  FV.neg (if (diffAt ps i).ltZero then diffAt ps i else FV.fin 0)

/-- The gain series of `calculate_rsi`, aligned with the price index. -/
def gainList (ps : List ℚ) : List FV := (List.range ps.length).map (gainAt ps)

/-- The loss series of `calculate_rsi`, aligned with the price index. -/
def lossList (ps : List ℚ) : List FV := (List.range ps.length).map (lossAt ps)

/-- `series.rolling(window=w).mean()` at one index; `min_periods` defaults to the
window size, so any NaN inside the window (and every warm-up position) gives NaN. -/
def rollingMeanAt (xs : List FV) (w i : Nat) : FV :=
  let win := (xs.take (i + 1)).drop (i + 1 - w)
  if i + 1 < w ∨ win.length < w then FV.nan
  else FV.div (win.foldl FV.add (FV.fin 0)) (FV.fin (w : ℚ))

/-- `rs = gain / loss` at one index. -/
def rsAt (ps : List ℚ) (w i : Nat) : FV :=
  FV.div (rollingMeanAt (gainList ps) w i) (rollingMeanAt (lossList ps) w i)

/-- `rsi = 100 - (100 / (1 + rs))` at one index. -/
def rsiAt (ps : List ℚ) (w i : Nat) : FV :=
  FV.sub (FV.fin 100) (FV.div (FV.fin 100) (FV.add (FV.fin 1) (rsAt ps w i)))

/-- `calculate_rsi(prices, window)` from `app.py`. -/
def calculate_rsi (prices : List ℚ) (window : Nat) : List FV :=
  (List.range prices.length).map (rsiAt prices window)

/-- Statement predicate: the value is finite and lies in `[lo, hi]`. -/
def FV.isFinBetween (lo hi : ℚ) : FV → Bool
  | fin q => decide (lo ≤ q) && decide (q ≤ hi)
  | _ => false

/-- Smoothing factor of a span-based pandas EWM: `alpha = 2 / (span + 1)`. -/
def ewmAlpha (span : ℚ) : ℚ := 2 / (span + 1)

/-- Weight-numerator of pandas `ewm(span=s).mean()` (default `adjust=True`) at index t. -/
def ewmNum (xs : List ℚ) (a : ℚ) (t : Nat) : ℚ :=
  ((List.range (t + 1)).map (fun j => (1 - a) ^ j * xs.getD (t - j) 0)).sum

/-- Weight-denominator of pandas `ewm(span=s).mean()` (default `adjust=True`) at index t. -/
def ewmDen (a : ℚ) (t : Nat) : ℚ :=
  ((List.range (t + 1)).map (fun j => (1 - a) ^ j)).sum

/-- One entry of pandas `ewm.mean()` with `adjust=True` (the library default, which
`calculate_macd` does not override). -/
def ewmMeanAt (xs : List ℚ) (a : ℚ) (t : Nat) : ℚ := ewmNum xs a t / ewmDen a t

/-- `series.ewm(span=span).mean()` as called by `calculate_macd`. -/
def ewmMean (xs : List ℚ) (span : ℚ) : List ℚ :=
  (List.range xs.length).map (ewmMeanAt xs (ewmAlpha span))

/-- `calculate_macd(prices, fast, slow, signal)` from `app.py`. -/
def calculate_macd (prices : List ℚ) (fast slow signal : ℚ) :
    List ℚ × List ℚ × List ℚ :=
  let ema_fast := ewmMean prices fast
  let ema_slow := ewmMean prices slow
  let macd := List.zipWith (fun x y => x - y) ema_fast ema_slow
  let signal_line := ewmMean macd signal
  let histogram := List.zipWith (fun x y => x - y) macd signal_line
  (macd, signal_line, histogram)

/-- Modelled from the spec: the plain recursive EMA `y0 = x0`,
`y_t = a*x_t + (1-a)*y_(t-1)` that the spec asserts `calculate_macd` uses
(compared against the source translation `ewmMean` in claim C3). -/
def emaRecAt (xs : List ℚ) (a : ℚ) : Nat → ℚ
  | 0 => xs.getD 0 0
  | t + 1 => a * xs.getD (t + 1) 0 + (1 - a) * emaRecAt xs a t

/-- Modelled from the spec: full series of the plain recursive EMA. -/
def emaRecSpec (xs : List ℚ) (span : ℚ) : List ℚ :=
  (List.range xs.length).map (emaRecAt xs (ewmAlpha span))

/-- Character class `[A-Z0-9.-]` of the ticker regex. -/
def tickerChar (c : Char) : Bool :=
  ('A' ≤ c && c ≤ 'Z') || ('0' ≤ c && c ≤ '9') || c = '.' || c = '-'

/-- The part of the string that `^[A-Z0-9.-]+$` must cover: without
`re.MULTILINE`, Python `$` also matches just before one newline at the very
end of the string, so one trailing newline is peeled off. -/
def pyCore (s : List Char) : List Char :=
  if s.getLast? = some '\n' then s.dropLast else s

/-- Python `re.match(r'^[A-Z0-9.-]+$', s)` as a whole-string test. -/
def pyMatchTicker (s : List Char) : Bool :=
  !(pyCore s).isEmpty && (pyCore s).all tickerChar

/-- `validate_ticker(ticker)` from `app.py`. -/
def validate_ticker (s : List Char) : Bool :=
  !(s.isEmpty || decide (s.length > 10) || !pyMatchTicker s)

/-- Python whitespace stripped by `str.strip()` (ASCII fragment). -/
def pySpace (c : Char) : Bool :=
  c = ' ' || c = '\t' || c = '\n' || c = '\r' || c = '\x0b' || c = '\x0c'

/-- Python `str.strip()`. -/
def pyStrip (s : List Char) : List Char :=
  ((s.dropWhile pySpace).reverse.dropWhile pySpace).reverse

/-- Python `str.lower()` (ASCII fragment). -/
def pyLower (s : List Char) : List Char := s.map Char.toLower

/-- Python `pat in s` substring test. -/
def hasSub (pat : List Char) : List Char → Bool
  | [] => pat.isEmpty
  | c :: rest => pat.isPrefixOf (c :: rest) || hasSub pat rest

def noTitleLit : List Char := "No Title".toList

def noTitleUpperLit : List Char := "NO TITLE".toList

def noLinkLit : List Char := "No Link".toList

def noLinkUpperLit : List Char := "NO LINK".toList

def httpLit : List Char := "http".toList

/-- One news article, a Python dict whose keys may be absent. -/
structure NewsItem where
  title : Option (List Char)
  link : Option (List Char)
  summary : Option (List Char)
  publisher : Option (List Char)
  providerPublishTime : Option ℚ
  deriving DecidableEq, Repr

/-- The keep-condition of `filter_valid_news` (comparisons are made on the
whitespace-stripped title and link, and `startswith('http')` is literal). -/
def keep_article (a : NewsItem) : Bool :=
  let title := pyStrip (a.title.getD [])
  let link := pyStrip (a.link.getD [])
  !title.isEmpty && !(title == noTitleLit) && !(title == noTitleUpperLit) &&
    !link.isEmpty && !(link == noLinkLit) && !(link == noLinkUpperLit) &&
    !(httpLit.isPrefixOf title)

/-- `filter_valid_news(news_list)` from `app.py` (the append loop is a filter). -/
def filter_valid_news (l : List NewsItem) : List NewsItem := l.filter keep_article

/-- The sort key `x.get('providerPublishTime', 0)`. -/
def newsKey (a : NewsItem) : ℚ := a.providerPublishTime.getD 0

/-- Descending comparator on the sort key: `a` may precede `b` when
`newsKey b ≤ newsKey a`. -/
def newsLeDesc (a b : NewsItem) : Prop := newsKey b ≤ newsKey a

instance : DecidableRel newsLeDesc :=
  fun a b => inferInstanceAs (Decidable (newsKey b ≤ newsKey a))

instance : IsTotal NewsItem newsLeDesc :=
  ⟨fun a b => le_total (newsKey b) (newsKey a)⟩

instance : IsTrans NewsItem newsLeDesc :=
  ⟨fun _ _ _ h1 h2 => le_trans h2 h1⟩

/-- `filtered_news.sort(key=..., reverse=True)` from `app.py`: Python list.sort
is stable, and insertion sort with this comparator places each element after
earlier equal-key elements, the unique stable descending arrangement. -/
def sortDesc (l : List NewsItem) : List NewsItem := l.insertionSort newsLeDesc

/-- Lines 157-175 of `app.py`: combine adapter outputs, filter, sort by
timestamp descending, truncate to 15. -/
def rankNews (yfNews breakingNews : List NewsItem) : List NewsItem :=
  let all_real_news := yfNews ++ breakingNews
  if all_real_news.isEmpty then []
  else
    let filtered_news := filter_valid_news all_real_news
    if filtered_news.isEmpty then [] else (sortDesc filtered_news).take 15

/-- Statement predicate for C6: the amended drop condition of
`filter_valid_news`, spelled on the whitespace-stripped title and link. -/
def dropCondition (a : NewsItem) : Prop :=
  pyStrip (a.title.getD []) = [] ∨ pyStrip (a.title.getD []) = noTitleLit ∨
    pyStrip (a.title.getD []) = noTitleUpperLit ∨
    httpLit.isPrefixOf (pyStrip (a.title.getD [])) = true ∨
    pyStrip (a.link.getD []) = [] ∨ pyStrip (a.link.getD []) = noLinkLit ∨
    pyStrip (a.link.getD []) = noLinkUpperLit

/-- Concrete article with a whitespace-only title, used for claim C6. -/
def cxNews : NewsItem := ⟨some [' '], some ['x'], none, none, none⟩

/-- Count of characters consumed by the minimal `[^<]*>`-shaped closing scan:
the first `'>'`, failing at `'<'` or end of input. -/
def tagClose : List Char → Option Nat
  | [] => none
  | c :: rest =>
    if c = '>' then some 1 else if c = '<' then none else (tagClose rest).map (fun n => n + 1)

/-- Count of characters matched after `'<'` by the non-greedy `[^<]+?>`:
one non-`'<'` character, then up to the first `'>'` with no `'<'` in between. -/
def tagMatch : List Char → Option Nat
  | [] => none
  | c :: rest => if c = '<' then none else (tagClose rest).map (fun n => n + 1)

/-- Python `re.sub('<[^<]+?>', '', s)`. -/
def stripTags : List Char → List Char
  | [] => []
  | c :: rest =>
    if c = '<' then
      match tagMatch rest with
      | some n => stripTags (rest.drop n)
      | none => c :: stripTags rest
    else c :: stripTags rest
termination_by l => l.length
decreasing_by
  all_goals simp_wf
  all_goals omega

/-- Python `re.sub(pat, rep, s)` for a literal (metacharacter-free) pattern:
non-overlapping left-to-right replacement. -/
def replaceList (pat rep : List Char) : List Char → List Char
  | [] => []
  | c :: rest =>
    if h : pat ≠ [] ∧ pat.isPrefixOf (c :: rest) then
      rep ++ replaceList pat rep ((c :: rest).drop pat.length)
    else c :: replaceList pat rep rest
termination_by l => l.length
decreasing_by
  all_goals simp_wf
  all_goals (have hp : 0 < pat.length := List.length_pos.mpr h.1; omega)

/-- Python `s.split(sep)` for a non-empty separator. -/
def splitSeq (sep : List Char) : List Char → List (List Char)
  | [] => [[]]
  | c :: rest =>
    if h : sep ≠ [] ∧ sep.isPrefixOf (c :: rest) then
      [] :: splitSeq sep ((c :: rest).drop sep.length)
    else
      match splitSeq sep rest with
      | [] => [[c]]
      | h2 :: t => (c :: h2) :: t
termination_by l => l.length
decreasing_by
  all_goals simp_wf
  all_goals (have hp : 0 < sep.length := List.length_pos.mpr h.1; omega)

def entNbsp : List Char := "&nbsp;".toList

def entAmp : List Char := "&amp;".toList

def entLt : List Char := "&lt;".toList

def entGt : List Char := "&gt;".toList

def sepDotSpace : List Char := ". ".toList

def ellipsisLit : List Char := "...".toList

def kwStock : List Char := "stock".toList

def kwShares : List Char := "shares".toList

def kwEarnings : List Char := "earnings".toList

def kwRevenue : List Char := "revenue".toList

def kwInvestment : List Char := "investment".toList

def kwFund : List Char := "fund".toList

def tplStockPre : List Char := "Latest market analysis and trading insights for ".toList

def tplStockPost : List Char :=
  ". Investors are monitoring key developments and price movements in the stock.".toList

def tplEarnPre : List Char := "Financial performance update for ".toList

def tplEarnPost : List Char :=
  ". Analysts review quarterly results and provide market outlook.".toList

def tplInvPre : List Char := "Investment activity and institutional interest in ".toList

def tplInvPost : List Char :=
  ". Market participants assess portfolio allocation strategies.".toList

def tplDefPre : List Char := "Breaking news and market updates for ".toList

def tplDefPost : List Char :=
  ". Financial markets react to latest corporate developments.".toList

/-- The keyword table of the summary-repair block (lines 396-407 of `app.py`):
fixed order, first match wins, default template last; every template embeds
the ticker symbol. -/
def chooseTemplate (ticker title : List Char) : List Char :=
  let tl := pyLower title
  if hasSub kwStock tl || hasSub kwShares tl then tplStockPre ++ ticker ++ tplStockPost
  else if hasSub kwEarnings tl || hasSub kwRevenue tl then tplEarnPre ++ ticker ++ tplEarnPost
  else if hasSub kwInvestment tl || hasSub kwFund tl then tplInvPre ++ ticker ++ tplInvPost
  else tplDefPre ++ ticker ++ tplDefPost

/-- Lines 384-391 of `app.py`: summary fallback to title, HTML tag strip,
the four entity decodes, final whitespace strip. -/
def cleanedSummary (a : NewsItem) : List Char :=
  let title := a.title.getD noTitleLit
  let s0 := a.summary.getD title
  let s1 := if s0.isEmpty then title else stripTags s0
  let s2 := replaceList entNbsp [' '] s1
  let s3 := replaceList entAmp ['&'] s2
  let s4 := replaceList entLt ['<'] s3
  let s5 := replaceList entGt ['>'] s4
  pyStrip s5

/-- Lines 394-407 of `app.py`: substitute a template when the cleaned summary
duplicates the title case-insensitively or is shorter than 50 characters. -/
def repairedSummary (ticker : List Char) (a : NewsItem) : List Char :=
  let title := a.title.getD noTitleLit
  let s := cleanedSummary a
  if pyLower s = pyLower title ∨ s.length < 50 then chooseTemplate ticker title else s

/-- Lines 409-422 of `app.py`: first two sentence segments, force a trailing
period, hard-truncate to 247 characters plus an ellipsis above 250. -/
def postSentences (s : List Char) : List Char :=
  let sentences := splitSeq sepDotSpace s
  let content :=
    if 2 ≤ sentences.length then List.intercalate sepDotSpace (sentences.take 2)
    else sentences.headD []
  let content2 := if content.getLast? = some '.' then content else content ++ ['.']
  if 250 < content2.length then content2.take 247 ++ ellipsisLit else content2

/-- The displayed news content for one article (lines 383-425 of `app.py`). -/
def displayContent (ticker : List Char) (a : NewsItem) : List Char :=
  postSentences (repairedSummary ticker a)

/-- Result of `pd.to_datetime(text).timestamp()` on a pubDate element. -/
inductive PubDate where
  | parsed (t : ℚ)
  | unparseable
  deriving DecidableEq, Repr

/-- One `<item>` element of the syndicated feed; every child may be absent. -/
structure FeedEntry where
  title : Option (List Char)
  link : Option (List Char)
  pubDate : Option PubDate
  description : Option (List Char)
  source : Option (List Char)
  deriving DecidableEq, Repr

/-- Outcome of the HTTP retrieval: an exception anywhere in the `try` block,
or a response with a status code and parsed `<item>` elements. -/
inductive FeedResult where
  | failure
  | success (status : Nat) (entries : List FeedEntry)
  deriving DecidableEq, Repr

def googleNewsLit : List Char := "Google News".toList

def defaultSummaryPre : List Char := "Latest news about ".toList

def defaultSummaryPost : List Char := " from reliable financial sources.".toList

/-- Lines 81-84 of `app.py`: a missing or unparseable pubDate becomes the
current time. -/
def parseTimestamp (now : ℚ) : Option PubDate → ℚ
  | some (PubDate.parsed t) => t
  | some PubDate.unparseable => now
  | none => now

/-- Lines 80-95 of `app.py`: an entry lacking a title or link element yields no
item; otherwise every field is filled, with fallbacks for absent children. -/
def mkEntryItem (ticker : List Char) (now : ℚ) (e : FeedEntry) : Option NewsItem :=
  match e.title, e.link with
  | some t, some l =>
    some ⟨some (pyStrip t), some (pyStrip l),
      some (pyStrip (e.description.getD (defaultSummaryPre ++ ticker ++ defaultSummaryPost))),
      some (e.source.getD googleNewsLit),
      some (parseTimestamp now e.pubDate)⟩
  | _, _ => none

/-- `fetch_breaking_news(ticker, company_name)` from `app.py`, with the I/O
boundary injected as data: `avail` is `WEB_SCRAPING_AVAILABLE`, `resp` the
retrieval outcome, `now` the current clock reading. -/
def fetch_breaking_news (avail : Bool) (ticker : List Char) (now : ℚ)
    (resp : FeedResult) : List NewsItem :=
  if !avail then []
  else
    match resp with
    | FeedResult.failure => []
    | FeedResult.success status entries =>
      if status = 200 then (entries.take 8).filterMap (mkEntryItem ticker now) else []

/-- Concrete ticker, feed entry, constructed item and collaborator behaviours
used by the witnesses of claims C8-C10. -/
def tickA : List Char := "A".toList

def feedE : FeedEntry := ⟨some ("T".toList), some ("L".toList), none, none, none⟩

def itmT : NewsItem :=
  ⟨some ("T".toList), some ("L".toList),
    some (pyStrip (defaultSummaryPre ++ tickA ++ defaultSummaryPost)),
    some googleNewsLit, some 7⟩

/-- The market-data collaborator's observable behaviour for one request:
`none` in a field models that call raising an exception. -/
structure MarketView where
  history : Option (List ℚ)
  info : Option (List (List Char × List Char))
  newsA : Option (List NewsItem)
  deriving Repr

/-- `fetch_stock_data(ticker, start, end)` from `app.py` with the collaborator
behaviour injected; the Python return `(None, None, None)` is `none`. -/
def fetch_stock_data (ticker : List Char) (mv : MarketView)
    (breaking : List NewsItem) :
    Option (List ℚ × List (List Char × List Char) × List NewsItem) :=
  if !validate_ticker ticker then none
  else
    match mv.history with
    | none => none
    | some stock_data =>
      if stock_data.isEmpty then none
      else
        let info := mv.info.getD []
        let yf_news := (mv.newsA.getD []).take 10
        some (stock_data, info, rankNews yf_news breaking)

/-- Collaborator whose every call raises. -/
def mvRaise : MarketView := ⟨none, none, none⟩

/-- Collaborator with one bar of history whose metadata and news calls raise. -/
def mvGood : MarketView := ⟨some [3], none, none⟩

lemma diffAt_fin_or_nan (ps : List ℚ) (i : Nat) :
    (∃ q, diffAt ps i = FV.fin q) ∨ diffAt ps i = FV.nan := by
  cases i with
  | zero => exact Or.inr rfl
  | succ j =>
    unfold diffAt
    by_cases h : j + 1 < ps.length <;> simp [h]

lemma gainAt_fin (ps : List ℚ) (i : Nat) :
    ∃ q, gainAt ps i = FV.fin q ∧ 0 ≤ q := by
  unfold gainAt
  rcases diffAt_fin_or_nan ps i with ⟨q, hq⟩ | hq <;> rw [hq]
  · by_cases h : 0 < q
    · exact ⟨q, by simp [FV.gtZero, h], le_of_lt h⟩
    · exact ⟨0, by simp [FV.gtZero, h], le_refl 0⟩
  · exact ⟨0, by simp [FV.gtZero], le_refl 0⟩

lemma lossAt_fin (ps : List ℚ) (i : Nat) :
    ∃ q, lossAt ps i = FV.fin q ∧ 0 ≤ q := by
  unfold lossAt
  rcases diffAt_fin_or_nan ps i with ⟨q, hq⟩ | hq <;> rw [hq]
  · by_cases h : q < 0
    · exact ⟨-q, by simp [FV.ltZero, h, FV.neg], by linarith⟩
    · exact ⟨0, by simp [FV.ltZero, h, FV.neg], le_refl 0⟩
  · exact ⟨0, by simp [FV.ltZero, FV.neg], le_refl 0⟩

lemma foldl_add_fin_nonneg :
    ∀ (l : List FV), (∀ v ∈ l, ∃ q, v = FV.fin q ∧ 0 ≤ q) →
      ∀ a : ℚ, ∃ s, l.foldl FV.add (FV.fin a) = FV.fin s ∧ a ≤ s := by
  intro l
  induction l with
  | nil => exact fun _ a => ⟨a, rfl, le_refl a⟩
  | cons v t ih =>
    intro h a
    obtain ⟨q, hv, hq⟩ := h v (List.mem_cons_self v t)
    obtain ⟨s, hs, has⟩ := ih (fun u hu => h u (List.mem_cons_of_mem v hu)) (a + q)
    refine ⟨s, ?_, by linarith⟩
    simpa [hv, FV.add] using hs

lemma foldl_add_fin_pos (l : List FV)
    (h : ∀ v ∈ l, ∃ q, v = FV.fin q ∧ 0 < q) (hne : l ≠ []) (a : ℚ) :
    ∃ s, l.foldl FV.add (FV.fin a) = FV.fin s ∧ a < s := by
  cases l with
  | nil => exact absurd rfl hne
  | cons v t =>
    obtain ⟨q, hv, hq⟩ := h v (List.mem_cons_self v t)
    obtain ⟨s, hs, has⟩ := foldl_add_fin_nonneg t
      (fun u hu => by
        obtain ⟨r, hr, hr0⟩ := h u (List.mem_cons_of_mem v hu)
        exact ⟨r, hr, le_of_lt hr0⟩) (a + q)
    refine ⟨s, ?_, by linarith⟩
    simpa [hv, FV.add] using hs

lemma foldl_add_fin_zero :
    ∀ (l : List FV), (∀ v ∈ l, v = FV.fin 0) →
      ∀ a : ℚ, l.foldl FV.add (FV.fin a) = FV.fin a := by
  intro l
  induction l with
  | nil => exact fun _ a => rfl
  | cons v t ih =>
    intro h a
    have hv := h v (List.mem_cons_self v t)
    have := ih (fun u hu => h u (List.mem_cons_of_mem v hu)) a
    simpa [hv, FV.add] using this

lemma rollingMeanAt_nan_or_fin_nonneg (xs : List FV)
    (hxs : ∀ v ∈ xs, ∃ q, v = FV.fin q ∧ 0 ≤ q) (w i : Nat) (hw : 1 ≤ w) :
    rollingMeanAt xs w i = FV.nan ∨
      ∃ m, rollingMeanAt xs w i = FV.fin m ∧ 0 ≤ m := by
  rw [rollingMeanAt]
  split
  · exact Or.inl rfl
  · right
    have hwin : ∀ v ∈ (xs.take (i + 1)).drop (i + 1 - w), ∃ q, v = FV.fin q ∧ 0 ≤ q :=
      fun v hv => hxs v (List.take_subset _ _ (List.drop_subset _ _ hv))
    obtain ⟨s, hs, has⟩ := foldl_add_fin_nonneg _ hwin 0
    have hwq : (0 : ℚ) < (w : ℚ) := by exact_mod_cast hw
    refine ⟨s / w, ?_, div_nonneg has (le_of_lt hwq)⟩
    rw [hs]
    simp [FV.div, ne_of_gt hwq]

lemma gainList_elem_nonneg (ps : List ℚ) :
    ∀ v ∈ gainList ps, ∃ q, v = FV.fin q ∧ 0 ≤ q := by
  intro v hv
  obtain ⟨j, hj⟩ := List.mem_iff_get?.mp hv
  rw [gainList, List.get?_map] at hj
  cases hr : (List.range ps.length).get? j with
  | none => rw [hr] at hj; simp at hj
  | some n =>
    rw [hr] at hj
    simp only [Option.map_some'] at hj
    obtain ⟨q, hq, h0⟩ := gainAt_fin ps n
    exact ⟨q, by rw [← Option.some_inj.mp hj, hq], h0⟩

lemma lossList_elem_nonneg (ps : List ℚ) :
    ∀ v ∈ lossList ps, ∃ q, v = FV.fin q ∧ 0 ≤ q := by
  intro v hv
  obtain ⟨j, hj⟩ := List.mem_iff_get?.mp hv
  rw [lossList, List.get?_map] at hj
  cases hr : (List.range ps.length).get? j with
  | none => rw [hr] at hj; simp at hj
  | some n =>
    rw [hr] at hj
    simp only [Option.map_some'] at hj
    obtain ⟨q, hq, h0⟩ := lossAt_fin ps n
    exact ⟨q, by rw [← Option.some_inj.mp hj, hq], h0⟩

lemma rsiAt_of_rs_nan (ps : List ℚ) (w i : Nat) (h : rsAt ps w i = FV.nan) :
    rsiAt ps w i = FV.nan := by
  rw [rsiAt, h]
  rfl

/-- Zero mean loss with positive mean gain makes RS = +inf and RSI exactly 100. -/
lemma rsiAt_eq_100 (ps : List ℚ) (w i : Nat)
    (hL : rollingMeanAt (lossList ps) w i = FV.fin 0)
    (g : ℚ) (hG : rollingMeanAt (gainList ps) w i = FV.fin g) (hg : 0 < g) :
    rsiAt ps w i = FV.fin 100 := by
  have hrs : rsAt ps w i = FV.inf := by
    rw [rsAt, hL, hG]
    simp [FV.div, hg]
  rw [rsiAt, hrs]
  show FV.fin (100 + -(0:ℚ)) = FV.fin 100
  norm_num

/-- Every finite RSI value lies in [0, 100]. -/
lemma rsiAt_fin_bounds (ps : List ℚ) (w i : Nat) (hw : 1 ≤ w) (q : ℚ)
    (h : rsiAt ps w i = FV.fin q) : 0 ≤ q ∧ q ≤ 100 := by
  rcases rollingMeanAt_nan_or_fin_nonneg (gainList ps) (gainList_elem_nonneg ps) w i hw with
    hG | ⟨g, hG, hg⟩
  · rw [rsiAt_of_rs_nan ps w i (by rw [rsAt, hG]; rfl)] at h
    exact absurd h (by simp)
  rcases rollingMeanAt_nan_or_fin_nonneg (lossList ps) (lossList_elem_nonneg ps) w i hw with
    hL | ⟨l, hL, hl⟩
  · rw [rsiAt_of_rs_nan ps w i (by rw [rsAt, hG, hL]; rfl)] at h
    exact absurd h (by simp)
  by_cases hl0 : l = 0
  · by_cases hg0 : 0 < g
    · rw [rsiAt_eq_100 ps w i (hl0 ▸ hL) g hG hg0] at h
      cases h
      constructor <;> norm_num
    · have hgz : g = 0 := le_antisymm (not_lt.mp hg0) hg
      have hrs : rsAt ps w i = FV.nan := by
        rw [rsAt, hG, hL, hl0, hgz]
        simp [FV.div]
      rw [rsiAt_of_rs_nan ps w i hrs] at h
      exact absurd h (by simp)
  · have hlpos : 0 < l := lt_of_le_of_ne hl (Ne.symm hl0)
    have hrs : rsAt ps w i = FV.fin (g / l) := by
      rw [rsAt, hG, hL]
      simp [FV.div, hl0]
    have hr : 0 ≤ g / l := div_nonneg hg (le_of_lt hlpos)
    have h1r : (0:ℚ) < 1 + g / l := by linarith
    have hrsi : rsiAt ps w i = FV.fin (100 + -(100 / (1 + g / l))) := by
      rw [rsiAt, hrs]
      simp only [FV.add, FV.div, FV.sub, FV.neg]
      rw [if_neg (ne_of_gt h1r)]
    rw [hrsi] at h
    cases h
    have hle : 100 / (1 + g / l) ≤ 100 := by
      apply div_le_self (by norm_num) (by linarith)
    have hpos : 0 < 100 / (1 + g / l) := by positivity
    constructor <;> linarith

lemma calculate_rsi_get? (ps : List ℚ) (w i : Nat) (h : i < ps.length) :
    (calculate_rsi ps w).get? i = some (rsiAt ps w i) := by
  rw [calculate_rsi, List.get?_map, List.get?_range h, Option.map_some']

lemma calculate_rsi_length (ps : List ℚ) (w : Nat) :
    (calculate_rsi ps w).length = ps.length := by
  rw [calculate_rsi, List.length_map, List.length_range]

/-- Warm-up positions (fewer than `w` prior bars) give NaN. -/
lemma rsiAt_warmup (ps : List ℚ) (w i : Nat) (h : i + 1 < w) :
    rsiAt ps w i = FV.nan := by
  have hg : rollingMeanAt (gainList ps) w i = FV.nan := by
    rw [rollingMeanAt]; simp [h]
  have hl : rollingMeanAt (lossList ps) w i = FV.nan := by
    rw [rollingMeanAt]; simp [h]
  exact rsiAt_of_rs_nan ps w i (by rw [rsAt, hg, hl]; rfl)

lemma win_elem_index {α : Type} (xs : List α) (w i : Nat) (v : α)
    (hv : v ∈ (xs.take (i + 1)).drop (i + 1 - w)) (hwi : w ≤ i + 1) :
    ∃ j, i + 1 - w ≤ j ∧ j ≤ i ∧ xs.get? j = some v := by
  obtain ⟨k, hk⟩ := List.mem_iff_get?.mp hv
  have hklen : k < ((xs.take (i + 1)).drop (i + 1 - w)).length := by
    by_contra hc
    rw [List.get?_eq_none.mpr (le_of_not_lt hc)] at hk
    exact Option.noConfusion hk
  have hlen : ((xs.take (i + 1)).drop (i + 1 - w)).length ≤ w := by
    rw [List.length_drop, List.length_take]
    omega
  rw [List.get?_drop] at hk
  have hlt : i + 1 - w + k < i + 1 := by omega
  rw [List.get?_take hlt] at hk
  exact ⟨i + 1 - w + k, by omega, by omega, hk⟩

lemma strictChain_get (ps : List ℚ) (hps : ps.Chain' (· < ·)) (j : Nat)
    (hj : j + 1 < ps.length) : ps.getD j 0 < ps.getD (j + 1) 0 := by
  have h := List.chain'_iff_get.mp hps j (by omega)
  rw [List.getD_eq_get ps 0 (by omega : j < ps.length),
    List.getD_eq_get ps 0 hj]
  exact h

/-- On a strictly increasing price list, positions with a full window of real
deltas have zero mean loss, positive mean gain, hence RSI = 100. -/
lemma rsiAt_strict_increasing (ps : List ℚ) (hps : ps.Chain' (· < ·)) (w i : Nat)
    (hw : 1 ≤ w) (hwi : w ≤ i) (hi : i < ps.length) :
    rsiAt ps w i = FV.fin 100 := by
  have hlossj : ∀ j, 1 ≤ j → j < ps.length → lossAt ps j = FV.fin 0 := by
    intro j h1 h2
    cases j with
    | zero => omega
    | succ j' =>
      have hd : diffAt ps (j' + 1) = FV.fin (ps.getD (j' + 1) 0 - ps.getD j' 0) := by
        simp only [diffAt]
        rw [if_pos (by omega : j' + 1 < ps.length)]
      have hlt := strictChain_get ps hps j' (by omega)
      rw [lossAt, hd]
      have hnn : ¬ (ps.getD (j' + 1) 0 - ps.getD j' 0 < 0) := by linarith
      have hfalse : (FV.fin (ps.getD (j' + 1) 0 - ps.getD j' 0)).ltZero = false :=
        decide_eq_false hnn
      rw [hfalse]
      simp [FV.neg]
  have hgainj : ∀ j, 1 ≤ j → j < ps.length →
      ∃ q, gainAt ps j = FV.fin q ∧ 0 < q := by
    intro j h1 h2
    cases j with
    | zero => omega
    | succ j' =>
      have hd : diffAt ps (j' + 1) = FV.fin (ps.getD (j' + 1) 0 - ps.getD j' 0) := by
        simp only [diffAt]
        rw [if_pos (by omega : j' + 1 < ps.length)]
      have hlt := strictChain_get ps hps j' (by omega)
      refine ⟨ps.getD (j' + 1) 0 - ps.getD j' 0, ?_, by linarith⟩
      rw [gainAt, hd]
      have hp : (0:ℚ) < ps.getD (j' + 1) 0 - ps.getD j' 0 := by linarith
      have htrue : (FV.fin (ps.getD (j' + 1) 0 - ps.getD j' 0)).gtZero = true :=
        decide_eq_true hp
      rw [htrue]
      simp
  -- index bookkeeping for elements of the two windows
  have hGidx : ∀ v ∈ ((gainList ps).take (i + 1)).drop (i + 1 - w),
      ∃ q, v = FV.fin q ∧ 0 < q := by
    intro v hv
    obtain ⟨j, hj1, hj2, hj3⟩ := win_elem_index (gainList ps) w i v hv (by omega)
    rw [gainList, List.get?_map, List.get?_range (by omega : j < ps.length),
      Option.map_some'] at hj3
    obtain ⟨q, hq, h0⟩ := hgainj j (by omega) (by omega)
    exact ⟨q, by rw [← Option.some_inj.mp hj3, hq], h0⟩
  have hLidx : ∀ v ∈ ((lossList ps).take (i + 1)).drop (i + 1 - w),
      v = FV.fin 0 := by
    intro v hv
    obtain ⟨j, hj1, hj2, hj3⟩ := win_elem_index (lossList ps) w i v hv (by omega)
    rw [lossList, List.get?_map, List.get?_range (by omega : j < ps.length),
      Option.map_some'] at hj3
    rw [← Option.some_inj.mp hj3]
    exact hlossj j (by omega) (by omega)
  have hwq : (0 : ℚ) < (w : ℚ) := by exact_mod_cast hw
  -- full windows: the if-condition of rollingMeanAt is false
  have hGlen : ((gainList ps).take (i + 1)).drop (i + 1 - w) ≠ [] := by
    have hlen : (((gainList ps).take (i + 1)).drop (i + 1 - w)).length = w := by
      rw [List.length_drop, List.length_take, gainList, List.length_map,
        List.length_range]
      omega
    intro hc
    rw [hc] at hlen
    simp at hlen
    omega
  have hcondG : ¬ (i + 1 < w ∨ (((gainList ps).take (i + 1)).drop (i + 1 - w)).length < w) := by
    rw [List.length_drop, List.length_take, gainList, List.length_map, List.length_range]
    push_neg
    omega
  have hcondL : ¬ (i + 1 < w ∨ (((lossList ps).take (i + 1)).drop (i + 1 - w)).length < w) := by
    rw [List.length_drop, List.length_take, lossList, List.length_map, List.length_range]
    push_neg
    omega
  have hL : rollingMeanAt (lossList ps) w i = FV.fin 0 := by
    rw [rollingMeanAt]
    rw [if_neg hcondL, foldl_add_fin_zero _ hLidx 0]
    simp [FV.div, ne_of_gt hwq]
  obtain ⟨s, hs, hs0⟩ := foldl_add_fin_pos _ hGidx hGlen 0
  have hG : rollingMeanAt (gainList ps) w i = FV.fin (s / w) := by
    rw [rollingMeanAt, if_neg hcondG, hs]
    simp [FV.div, ne_of_gt hwq]
  exact rsiAt_eq_100 ps w i hL (s / w) hG (div_pos hs0 hwq)

lemma ewmMean_length (xs : List ℚ) (span : ℚ) : (ewmMean xs span).length = xs.length := by
  rw [ewmMean, List.length_map, List.length_range]

lemma ewmMean_get? (xs : List ℚ) (span : ℚ) (i : Nat) (h : i < xs.length) :
    (ewmMean xs span).get? i = some (ewmMeanAt xs (ewmAlpha span) i) := by
  rw [ewmMean, List.get?_map, List.get?_range h, Option.map_some']

lemma ewmMeanAt_zero (xs : List ℚ) (a : ℚ) : ewmMeanAt xs a 0 = xs.getD 0 0 := by
  rw [ewmMeanAt, ewmNum, ewmDen]
  simp [List.range_succ]

lemma ewmNum_succ (xs : List ℚ) (a : ℚ) (t : Nat) :
    ewmNum xs a (t + 1) = xs.getD (t + 1) 0 + (1 - a) * ewmNum xs a t := by
  rw [ewmNum, ewmNum, List.range_succ_eq_map]
  rw [List.map_cons, List.sum_cons, List.map_map]
  congr 1
  · simp
  · rw [← List.sum_map_mul_left]
    congr 1
    apply List.map_congr_left
    intro j _
    simp only [Function.comp_apply, Nat.succ_sub_succ]
    rw [pow_succ]
    ring

lemma ewmDen_succ (a : ℚ) (t : Nat) :
    ewmDen a (t + 1) = 1 + (1 - a) * ewmDen a t := by
  rw [ewmDen, ewmDen, List.range_succ_eq_map]
  rw [List.map_cons, List.sum_cons, List.map_map]
  congr 1
  · rw [← List.sum_map_mul_left]
    congr 1
    apply List.map_congr_left
    intro j _
    simp only [Function.comp_apply]
    rw [pow_succ]
    ring

lemma endsDotAux (c : List Char) :
    ((if c.getLast? = some '.' then c else c ++ ['.'])).getLast? = some '.' := by
  split
  · assumption
  · exact List.getLast?_concat c

lemma truncKeepsDot (c : List Char) (h : c.getLast? = some '.') :
    (if 250 < c.length then c.take 247 ++ ellipsisLit else c).getLast? = some '.' := by
  split
  · rw [show ellipsisLit = ['.', '.'] ++ ['.'] from rfl, ← List.append_assoc,
      List.getLast?_concat]
  · exact h

lemma truncLen (c : List Char) :
    (if 250 < c.length then c.take 247 ++ ellipsisLit else c).length ≤ 250 := by
  have he : ellipsisLit.length = 3 := rfl
  split
  · rw [List.length_append, List.length_take, he]
    omega
  · omega

lemma postSentences_getLast (s : List Char) : (postSentences s).getLast? = some '.' :=
  truncKeepsDot _ (endsDotAux _)

lemma postSentences_le_250 (s : List Char) : (postSentences s).length ≤ 250 :=
  truncLen _

lemma orderedInsert_filter_key (k : ℚ) (x : NewsItem) (l : List NewsItem) :
    (l.orderedInsert newsLeDesc x).filter (fun y => decide (newsKey y = k)) =
      if newsKey x = k then x :: l.filter (fun y => decide (newsKey y = k))
      else l.filter (fun y => decide (newsKey y = k)) := by
  induction l with
  | nil =>
    by_cases hx : newsKey x = k <;> simp [List.orderedInsert, List.filter, hx]
  | cons y ys ih =>
    rw [List.orderedInsert]
    by_cases hyx : newsLeDesc x y
    · rw [if_pos hyx]
      by_cases hx : newsKey x = k <;> simp [List.filter_cons, hx]
    · rw [if_neg hyx]
      have hlt : newsKey x < newsKey y := lt_of_not_le hyx
      rw [List.filter_cons, List.filter_cons]
      by_cases hy : newsKey y = k
      · have hx : ¬(newsKey x = k) := by
          intro h
          rw [h, hy] at hlt
          exact lt_irrefl k hlt
        simp [hy, hx, ih]
      · by_cases hx : newsKey x = k <;> simp [hy, hx, ih]

lemma sortDesc_filter_key (k : ℚ) :
    ∀ l : List NewsItem,
      (sortDesc l).filter (fun y => decide (newsKey y = k)) =
        l.filter (fun y => decide (newsKey y = k)) := by
  intro l
  induction l with
  | nil => rfl
  | cons x ys ih =>
    rw [sortDesc, List.insertionSort, orderedInsert_filter_key, List.filter_cons]
    rw [sortDesc] at ih
    by_cases hx : newsKey x = k <;> simp [hx, ih]

lemma sortDesc_perm (l : List NewsItem) : (sortDesc l).Perm l :=
  List.perm_insertionSort newsLeDesc l

lemma sortDesc_chain' (l : List NewsItem) :
    List.Chain' (fun a b => newsKey b ≤ newsKey a) (sortDesc l) :=
  (List.sorted_insertionSort newsLeDesc l).chain'

lemma rankNews_eq (a b : List NewsItem) :
    rankNews a b = (sortDesc (filter_valid_news (a ++ b))).take 15 := by
  rw [rankNews]
  by_cases h1 : (a ++ b).isEmpty
  · rw [if_pos h1]
    rw [List.isEmpty_iff] at h1
    rw [h1]
    rfl
  · rw [if_neg h1]
    by_cases h2 : (filter_valid_news (a ++ b)).isEmpty
    · rw [if_pos h2]
      rw [List.isEmpty_iff] at h2
      rw [h2]
      rfl
    · rw [if_neg h2]

lemma keep_iff_not_drop (a : NewsItem) : keep_article a = true ↔ ¬ dropCondition a := by
  rw [keep_article, dropCondition]
  simp only [Bool.and_eq_true, Bool.not_eq_true', beq_eq_false_iff_ne, ne_eq,
    Bool.not_eq_true, List.isEmpty_iff, List.isEmpty_eq_false]
  push_neg
  simp only [ne_eq, Bool.not_eq_true]
  tauto

/-- Claim C1 (amended): at every in-range position where the rolling mean of
losses is zero and the rolling mean of gains is positive, `calculate_rsi`
resolves RSI to exactly 100 rather than a propagated NaN; in particular a
strictly increasing price sequence (so of length ≥ window+1) yields RSI = 100
at every trailing position `i ≥ window`.  The amendment adds the positive
mean-gain requirement: on a flat window both rolling means are 0, RS is 0/0,
and RSI is NaN — see the counterexample. -/
theorem claim_C1_rsi_zero_loss :
    (∀ (ps : List ℚ) (w i : Nat), i < ps.length →
        rollingMeanAt (lossList ps) w i = FV.fin 0 →
        (∃ g, rollingMeanAt (gainList ps) w i = FV.fin g ∧ 0 < g) →
        (calculate_rsi ps w).get? i = some (FV.fin 100)) ∧
    (∀ (ps : List ℚ) (w i : Nat), 1 ≤ w → ps.Chain' (· < ·) → w ≤ i →
        i < ps.length → (calculate_rsi ps w).get? i = some (FV.fin 100)) := by
  constructor
  · rintro ps w i hi hL ⟨g, hG, hg⟩
    rw [calculate_rsi_get? ps w i hi, rsiAt_eq_100 ps w i hL g hG hg]
  · intro ps w i hw hch hwi hi
    rw [calculate_rsi_get? ps w i hi, rsiAt_strict_increasing ps hch w i hw hwi hi]

/-- Claim C1 counterexample: on the flat series [5,5,5] with window 2 the
rolling mean of losses at position 2 is 0, yet RSI there is NaN, not 100. -/
theorem claim_C1_counterexample :
    rollingMeanAt (lossList [5, 5, 5]) 2 2 = FV.fin 0 ∧
      (calculate_rsi [5, 5, 5] 2).get? 2 = some FV.nan ∧
      (calculate_rsi [5, 5, 5] 2).get? 2 ≠ some (FV.fin 100) := by
  with_unfolding_all decide

/-- Claim C1 witness: both parts applied at concrete inputs. -/
theorem claim_C1_witness :
    (calculate_rsi [1, 2, 3] 2).get? 2 = some (FV.fin 100) ∧
      (calculate_rsi [1, 2, 3] 1).get? 2 = some (FV.fin 100) :=
  ⟨claim_C1_rsi_zero_loss.1 [1, 2, 3] 2 2 (by decide)
      (by with_unfolding_all decide)
      ⟨1, by with_unfolding_all decide, by norm_num⟩,
    claim_C1_rsi_zero_loss.2 [1, 2, 3] 1 2 (by decide)
      (by norm_num [List.chain'_cons]) (by decide) (by decide)⟩

/-- Claim C2 (amended): `calculate_rsi` output length equals input length;
every defined (finite) value lies in [0,100]; and on any 31-bar series with
window 5 the first 4 entries are undefined (NaN).  The original claim also
asserted entries 5..31 are always defined values in [0,100]; the counterexample
shows a constant 31-bar series leaves them NaN, so those entries lie in [0,100]
only whenever they are defined (second conjunct). -/
theorem claim_C2_rsi_shape :
    (∀ (ps : List ℚ) (w : Nat), (calculate_rsi ps w).length = ps.length) ∧
    (∀ (ps : List ℚ) (w i : Nat) (q : ℚ), 1 ≤ w →
        (calculate_rsi ps w).get? i = some (FV.fin q) → 0 ≤ q ∧ q ≤ 100) ∧
    (∀ ps : List ℚ, ps.length = 31 → ∀ i, i < 4 →
        (calculate_rsi ps 5).get? i = some FV.nan) := by
  refine ⟨calculate_rsi_length, ?_, ?_⟩
  · intro ps w i q hw h
    by_cases hi : i < ps.length
    · rw [calculate_rsi_get? ps w i hi] at h
      exact rsiAt_fin_bounds ps w i hw q (Option.some_inj.mp h)
    · rw [List.get?_eq_none.mpr (by rw [calculate_rsi_length]; omega)] at h
      exact Option.noConfusion h
  · intro ps hlen i hi
    have hi31 : i < ps.length := by omega
    rw [calculate_rsi_get? ps 5 i hi31, rsiAt_warmup ps 5 i (by omega)]

/-- Claim C2 counterexample: on the constant 31-bar series with window 5, entry
5 (index 4) is NaN, not a defined value in [0,100]. -/
theorem claim_C2_counterexample :
    (calculate_rsi (List.replicate 31 (5 : ℚ)) 5).get? 4 = some FV.nan ∧
      FV.nan.isFinBetween 0 100 = false := by
  with_unfolding_all decide

/-- Claim C2 witness: the three parts applied at concrete inputs. -/
theorem claim_C2_witness :
    (calculate_rsi ([1, 2] : List ℚ) 3).length = 2 ∧
      (0 ≤ (100 : ℚ) ∧ (100 : ℚ) ≤ 100) ∧
      (calculate_rsi (List.replicate 31 (5 : ℚ)) 5).get? 0 = some FV.nan :=
  ⟨claim_C2_rsi_shape.1 [1, 2] 3,
    claim_C2_rsi_shape.2.1 [1, 2, 3] 1 1 100 (by decide) (by with_unfolding_all decide),
    claim_C2_rsi_shape.2.2 (List.replicate 31 5) (by simp) 0 (by decide)⟩

lemma getD_of_get? {α : Type} (l : List α) (n : Nat) (d a : α)
    (h : l.get? n = some a) : l.getD n d = a := by
  rw [List.getD_eq_getElem?_getD, ← List.get?_eq_getElem?, h, Option.getD_some]

/-- Claim C3 (amended): `calculate_macd` computes each EMA as pandas'
default `adjust=True` weight-normalized mean (seeded from the first price and
obeying the numerator/denominator recurrence of the adjusted form, with
`alpha = 2/(span+1)`); macdLine = EMA(fast) − EMA(slow) pointwise, signalLine =
EMA(macdLine, span=signal), histogram = macdLine − signalLine pointwise, and
all three returned series have the same length as the input.  The EMA is NOT
the plain recursion `y_t = a*x_t + (1-a)*y_(t-1)` asserted by the original
claim — see the counterexample. -/
theorem claim_C3_macd :
    (∀ (ps : List ℚ) (f s g : ℚ),
        (calculate_macd ps f s g).1.length = ps.length ∧
        (calculate_macd ps f s g).2.1.length = ps.length ∧
        (calculate_macd ps f s g).2.2.length = ps.length) ∧
    (∀ (ps : List ℚ) (f s g : ℚ) (i : Nat) (m sl : ℚ),
        (calculate_macd ps f s g).1.get? i = some m →
        (calculate_macd ps f s g).2.1.get? i = some sl →
        (calculate_macd ps f s g).2.2.get? i = some (m - sl)) ∧
    (∀ (ps : List ℚ) (f s g : ℚ) (i : Nat) (ef es : ℚ),
        (ewmMean ps f).get? i = some ef → (ewmMean ps s).get? i = some es →
        (calculate_macd ps f s g).1.get? i = some (ef - es)) ∧
    (∀ (ps : List ℚ) (f s g : ℚ),
        (calculate_macd ps f s g).2.1 = ewmMean (calculate_macd ps f s g).1 g) ∧
    (∀ (xs : List ℚ) (a x0 : ℚ), xs.get? 0 = some x0 → ewmMeanAt xs a 0 = x0) ∧
    (∀ (xs : List ℚ) (a : ℚ) (t : Nat),
        ewmNum xs a (t + 1) = xs.getD (t + 1) 0 + (1 - a) * ewmNum xs a t ∧
        ewmDen a (t + 1) = 1 + (1 - a) * ewmDen a t ∧
        ewmMeanAt xs a t = ewmNum xs a t / ewmDen a t) := by
  refine ⟨?_, ?_, ?_, ?_, ?_, ?_⟩
  · intro ps f s g
    simp only [calculate_macd]
    refine ⟨?_, ?_, ?_⟩ <;>
      simp [List.length_zipWith, ewmMean_length]
  · intro ps f s g i m sl h1 h2
    show (List.zipWith (fun x y => x - y) (calculate_macd ps f s g).1
      (calculate_macd ps f s g).2.1).get? i = some (m - sl)
    rw [List.get?_zipWith_eq_some]
    exact ⟨m, sl, h1, h2, rfl⟩
  · intro ps f s g i ef es h1 h2
    show (List.zipWith (fun x y => x - y) (ewmMean ps f) (ewmMean ps s)).get? i
      = some (ef - es)
    rw [List.get?_zipWith_eq_some]
    exact ⟨ef, es, h1, h2, rfl⟩
  · intro ps f s g
    rfl
  · intro xs a x0 h
    rw [ewmMeanAt_zero]
    exact getD_of_get? xs 0 0 x0 h
  · intro xs a t
    exact ⟨ewmNum_succ xs a t, ewmDen_succ a t, rfl⟩

/-- Claim C3 counterexample: at prices [0, 1] the macd line the code computes
(pandas default adjust=True EMAs) differs from the macd line built from the
plain recursive EMA asserted by the claim. -/
theorem claim_C3_counterexample :
    (calculate_macd [(0 : ℚ), 1] 12 26 9).1 ≠
      List.zipWith (fun x y => x - y) (emaRecSpec [(0 : ℚ), 1] 12)
        (emaRecSpec [(0 : ℚ), 1] 26) := by
  with_unfolding_all decide

/-- Claim C3 witness: the hypothesis-bearing parts applied at concrete inputs. -/
theorem claim_C3_witness :
    (calculate_macd [(5 : ℚ)] 12 26 9).2.2.get? 0 = some ((0 : ℚ) - 0) ∧
      (calculate_macd [(0 : ℚ), 1] 12 26 9).1.get? 1 =
        some ((13 : ℚ) / 24 - 27 / 52) ∧
      ewmMeanAt [(3 : ℚ), 4] (1 / 2) 0 = 3 ∧
      (ewmNum [(3 : ℚ), 4] (1 / 2) 1 =
          [(3 : ℚ), 4].getD 1 0 + (1 - 1 / 2) * ewmNum [(3 : ℚ), 4] (1 / 2) 0 ∧
        ewmDen (1 / 2) 1 = 1 + (1 - 1 / 2) * ewmDen (1 / 2) 0 ∧
        ewmMeanAt [(3 : ℚ), 4] (1 / 2) 0 =
          ewmNum [(3 : ℚ), 4] (1 / 2) 0 / ewmDen (1 / 2) 0) :=
  ⟨claim_C3_macd.2.1 [5] 12 26 9 0 0 0
      (by with_unfolding_all decide) (by with_unfolding_all decide),
    claim_C3_macd.2.2.1 [0, 1] 12 26 9 1 (13 / 24) (27 / 52)
      (by with_unfolding_all decide) (by with_unfolding_all decide),
    claim_C3_macd.2.2.2.2.1 [3, 4] (1 / 2) 3 (by with_unfolding_all decide),
    claim_C3_macd.2.2.2.2.2 [3, 4] (1 / 2) 0⟩

lemma getLast?_mem {α : Type} (l : List α) (c : α) (h : l.getLast? = some c) :
    c ∈ l := by
  induction l using List.reverseRecOn with
  | nil => exact Option.noConfusion h
  | append_singleton l' a _ =>
    rw [List.getLast?_concat] at h
    have hac := Option.some_inj.mp h
    subst hac
    exact List.mem_append_right l' (List.mem_singleton_self a)

lemma eq_dropLast_concat {α : Type} (l : List α) (c : α) (h : l.getLast? = some c) :
    l = l.dropLast ++ [c] := by
  induction l using List.reverseRecOn with
  | nil => exact Option.noConfusion h
  | append_singleton l' a _ =>
    rw [List.getLast?_concat] at h
    have hac := Option.some_inj.mp h
    subst hac
    rw [List.dropLast_concat]

lemma pyMatchTicker_iff (s : List Char) :
    pyMatchTicker s = true ↔
      ∃ core tail, s = core ++ tail ∧ core ≠ [] ∧ core.all tickerChar = true ∧
        (tail = [] ∨ tail = ['\n']) := by
  constructor
  · intro hm
    obtain ⟨hne, hall⟩ := Bool.and_eq_true_iff.mp hm
    rw [Bool.not_eq_true', List.isEmpty_eq_false] at hne
    by_cases h : s.getLast? = some '\n'
    · rw [pyCore, if_pos h] at hne hall
      exact ⟨s.dropLast, ['\n'], eq_dropLast_concat s '\n' h, hne, hall, Or.inr rfl⟩
    · rw [pyCore, if_neg h] at hne hall
      exact ⟨s, [], (List.append_nil s).symm, hne, hall, Or.inl rfl⟩
  · rintro ⟨core, tail, rfl, hcne, hall, htail | htail⟩
    · subst htail
      rw [List.append_nil]
      have hlast : pyCore core = core := by
        rw [pyCore, if_neg]
        intro hc
        have hch := List.all_eq_true.mp hall _ (getLast?_mem core '\n' hc)
        exact absurd hch (by decide)
      rw [pyMatchTicker, hlast, hall]
      simp [hcne]
    · subst htail
      have hc : pyCore (core ++ ['\n']) = core := by
        rw [pyCore, if_pos (List.getLast?_concat core), List.dropLast_concat]
      rw [pyMatchTicker, hc, hall]
      simp [hcne]

/-- Claim C4 (amended): `validate_ticker(s)` returns true iff s has at most 10
characters and, after removing at most one trailing newline, is non-empty with
every character in `[A-Z0-9.-]`.  Python's `$` (without `re.MULTILINE`) also
matches just before a final newline, so a string such as "AAPL\n" validates
even though `'\n'` is outside the class (see the counterexample); the five
spec examples all hold, and the function is total by construction. -/
theorem claim_C4_validate_ticker :
    (∀ s : List Char, validate_ticker s = true ↔
      (s.length ≤ 10 ∧ ∃ core tail, s = core ++ tail ∧ core ≠ [] ∧
        core.all tickerChar = true ∧ (tail = [] ∨ tail = ['\n']))) ∧
    validate_ticker ("AAPL".toList) = true ∧
    validate_ticker ("".toList) = false ∧
    validate_ticker ("TOOLONGNAME".toList) = false ∧
    validate_ticker ("INVALID@".toList) = false ∧
    validate_ticker ("test symbol".toList) = false := by
  refine ⟨?_, by with_unfolding_all decide, by with_unfolding_all decide,
    by with_unfolding_all decide, by with_unfolding_all decide,
    by with_unfolding_all decide⟩
  intro s
  rw [validate_ticker, Bool.not_eq_true', Bool.or_eq_false_iff,
    Bool.or_eq_false_iff]
  rw [decide_eq_false_iff_not, Bool.not_eq_false']
  constructor
  · rintro ⟨⟨hse, hlen⟩, hm⟩
    exact ⟨by omega, (pyMatchTicker_iff s).mp hm⟩
  · rintro ⟨hlen, hdecomp⟩
    have hm := (pyMatchTicker_iff s).mpr hdecomp
    refine ⟨⟨?_, by omega⟩, hm⟩
    obtain ⟨core, tail, rfl, hcne, -, -⟩ := hdecomp
    rw [List.isEmpty_eq_false]
    intro hc
    exact hcne (List.append_eq_nil.mp hc).1

/-- Claim C4 counterexample: "AAPL\n" validates although it contains a
character outside `[A-Z0-9.-]`, so the claimed iff fails on it. -/
theorem claim_C4_counterexample :
    ¬ (validate_ticker ("AAPL\n".toList) = true ↔
        ("AAPL\n".toList ≠ [] ∧ ("AAPL\n".toList).length ≤ 10 ∧
          ("AAPL\n".toList).all tickerChar = true)) := by
  with_unfolding_all decide

/-- Claim C4 witness: the amended characterization applied at "AAPL". -/
theorem claim_C4_witness : validate_ticker ("AAPL".toList) = true :=
  (claim_C4_validate_ticker.1 ("AAPL".toList)).mpr
    ⟨by decide, "AAPL".toList, [], by simp, by decide, by decide, Or.inl rfl⟩

/-- Claim C5: the news result equals the stable sort of the validity-filtered
concatenation, descending by publication timestamp with a missing timestamp
read as 0, truncated to the first 15 items; the sort is a permutation that
preserves the relative order of equal-key items (stability), hence every
returned list has at most 15 items and is descending in the key. -/
theorem claim_C5_rank :
    ∀ (a b : List NewsItem),
      rankNews a b = (sortDesc (filter_valid_news (a ++ b))).take 15 ∧
      (rankNews a b).length ≤ 15 ∧
      List.Chain' (fun x y => newsKey y ≤ newsKey x) (rankNews a b) ∧
      (sortDesc (filter_valid_news (a ++ b))).Perm (filter_valid_news (a ++ b)) ∧
      (∀ k : ℚ,
        (sortDesc (filter_valid_news (a ++ b))).filter
            (fun y => decide (newsKey y = k)) =
          (filter_valid_news (a ++ b)).filter (fun y => decide (newsKey y = k))) := by
  intro a b
  refine ⟨rankNews_eq a b, ?_, ?_, sortDesc_perm _, fun k => sortDesc_filter_key k _⟩
  · rw [rankNews_eq, List.length_take]
    exact min_le_left _ _
  · rw [rankNews_eq]
    exact (sortDesc_chain' _).take 15

/-- Claim C5 witness: the bound applied at a concrete input. -/
theorem claim_C5_witness : (rankNews [] []).length ≤ 15 :=
  (claim_C5_rank [] []).2.1

/-- Claim C6 (amended): `filter_valid_news` keeps exactly the items whose
whitespace-stripped title is non-empty, differs from the placeholders
"No Title"/"NO TITLE" and does not start with the literal "http", and whose
whitespace-stripped link is non-empty and differs from "No Link"/"NO LINK";
survivors are kept unchanged and in order (the output is a sublist of the
input), and when zero items survive across both adapters the aggregation
result is the empty list.  The original claim compared the raw title and
link; the counterexample shows a whitespace-only title is dropped although
the original wording says it is kept. -/
theorem claim_C6_filter :
    (∀ (l : List NewsItem) (a : NewsItem),
        a ∈ filter_valid_news l ↔ a ∈ l ∧ ¬ dropCondition a) ∧
    (∀ l : List NewsItem, (filter_valid_news l).Sublist l) ∧
    (∀ a b : List NewsItem, filter_valid_news (a ++ b) = [] → rankNews a b = []) := by
  refine ⟨?_, ?_, ?_⟩
  · intro l a
    rw [filter_valid_news, List.mem_filter, keep_iff_not_drop]
  · intro l
    exact List.filter_sublist l
  · intro a b h
    rw [rankNews_eq, h]
    rfl

/-- Claim C6 counterexample: an article whose raw title is the single space
" " satisfies every keep-condition of the original claim (raw comparisons),
yet `filter_valid_news` drops it because the comparisons run on the stripped
title. -/
theorem claim_C6_counterexample :
    filter_valid_news [cxNews] = [] ∧
      cxNews.title.getD [] ≠ [] ∧ cxNews.title.getD [] ≠ noTitleLit ∧
      cxNews.title.getD [] ≠ noTitleUpperLit ∧
      httpLit.isPrefixOf (cxNews.title.getD []) = false ∧
      cxNews.link.getD [] ≠ [] ∧ cxNews.link.getD [] ≠ noLinkLit ∧
      cxNews.link.getD [] ≠ noLinkUpperLit := by
  with_unfolding_all decide

/-- Claim C6 witness: the empty-aggregation part applied at a concrete input,
and the membership characterization instantiated. -/
theorem claim_C6_witness :
    rankNews [cxNews] [] = [] ∧
      (cxNews ∈ filter_valid_news [cxNews] ↔
        cxNews ∈ [cxNews] ∧ ¬ dropCondition cxNews) :=
  ⟨claim_C6_filter.2.2 [cxNews] [] (by with_unfolding_all decide),
    claim_C6_filter.1 [cxNews] cxNews⟩

lemma isPrefixOf_append (p r : List Char) : p.isPrefixOf (p ++ r) = true := by
  rw [List.isPrefixOf_iff_prefix]
  exact List.prefix_append p r

lemma hasSub_mid (x p r : List Char) : hasSub p (x ++ p ++ r) = true := by
  induction x with
  | nil =>
    simp only [List.nil_append]
    cases hpr : p ++ r with
    | nil =>
      have hp : p = [] := (List.append_eq_nil.mp hpr).1
      subst hp
      rfl
    | cons c cs =>
      show (p.isPrefixOf (c :: cs) || hasSub p cs) = true
      rw [← hpr, isPrefixOf_append]
      rfl
  | cons c t ih =>
    have hshape : (c :: t) ++ p ++ r = c :: (t ++ p ++ r) := by simp
    rw [hshape]
    show (p.isPrefixOf (c :: (t ++ p ++ r)) || hasSub p (t ++ p ++ r)) = true
    rw [ih, Bool.or_true]

/-- Claim C7: for every ticker and article the displayed news content ends
with a period and has at most 250 characters (hard cut to 247 characters plus
the "..." marker when over 250); HTML tags are stripped and the four entities
decoded inside `cleanedSummary`; whenever the cleaned summary equals the title
case-insensitively or is shorter than 50 characters, the content is built from
the keyword-chosen template (fixed order stock/shares, earnings/revenue,
investment/fund, then default — first match wins), and every template embeds
the ticker symbol. -/
theorem claim_C7_summary :
    (∀ (tk : List Char) (a : NewsItem),
        (displayContent tk a).getLast? = some '.' ∧
          (displayContent tk a).length ≤ 250) ∧
    (∀ (tk : List Char) (a : NewsItem),
        (pyLower (cleanedSummary a) = pyLower (a.title.getD noTitleLit) ∨
            (cleanedSummary a).length < 50) →
          displayContent tk a =
            postSentences (chooseTemplate tk (a.title.getD noTitleLit))) ∧
    (∀ (tk title : List Char), hasSub tk (chooseTemplate tk title) = true) := by
  refine ⟨?_, ?_, ?_⟩
  · intro tk a
    exact ⟨postSentences_getLast _, postSentences_le_250 _⟩
  · intro tk a h
    rw [displayContent, repairedSummary, if_pos h]
  · intro tk title
    rw [chooseTemplate]
    split
    · exact hasSub_mid tplStockPre tk tplStockPost
    · split
      · exact hasSub_mid tplEarnPre tk tplEarnPost
      · split
        · exact hasSub_mid tplInvPre tk tplInvPost
        · exact hasSub_mid tplDefPre tk tplDefPost

/-- Claim C7 witness: the template-substitution part applied to a short title
whose cleaned summary is shorter than 50 characters, plus the template
ticker-embedding fact at the same inputs. -/
theorem claim_C7_witness :
    displayContent ("AAPL".toList) ⟨some ("x".toList), none, none, none, none⟩ =
        postSentences (chooseTemplate ("AAPL".toList) ("x".toList)) ∧
      hasSub ("AAPL".toList) (chooseTemplate ("AAPL".toList) ("x".toList)) = true :=
  ⟨claim_C7_summary.2.1 ("AAPL".toList) ⟨some ("x".toList), none, none, none, none⟩
      (Or.inr (by with_unfolding_all decide)),
    claim_C7_summary.2.2 ("AAPL".toList) ("x".toList)⟩

/-- Claim C8: adapter B never propagates a failure past its boundary — a
retrieval/parse/timeout failure (modelled by `FeedResult.failure`), a missing
scraping dependency or a non-200 status all yield the empty list, and the
result is always a plain list of at most the first 8 feed entries; per entry,
a missing or unparseable publication date is replaced by the current time, a
missing description by the generic ticker-referencing sentence, and a missing
source by the fixed fallback publisher label. -/
theorem claim_C8_breaking :
    (∀ (avail : Bool) (tk : List Char) (now : ℚ),
        fetch_breaking_news avail tk now FeedResult.failure = []) ∧
    (∀ (avail : Bool) (tk : List Char) (now : ℚ) (resp : FeedResult),
        (fetch_breaking_news avail tk now resp).length ≤ 8) ∧
    (∀ (tk : List Char) (now : ℚ) (e : FeedEntry) (t l : List Char),
        e.title = some t → e.link = some l →
        ∃ itm, mkEntryItem tk now e = some itm ∧
          ((e.pubDate = none ∨ e.pubDate = some PubDate.unparseable) →
            itm.providerPublishTime = some now) ∧
          (e.description = none →
            itm.summary =
              some (pyStrip (defaultSummaryPre ++ tk ++ defaultSummaryPost))) ∧
          (e.source = none → itm.publisher = some googleNewsLit)) := by
  refine ⟨?_, ?_, ?_⟩
  · intro avail tk now
    cases avail <;> rfl
  · intro avail tk now resp
    cases avail with
    | false => simp [fetch_breaking_news]
    | true =>
      cases resp with
      | failure => simp [fetch_breaking_news]
      | success status entries =>
        rw [fetch_breaking_news]
        simp only [Bool.not_true, Bool.false_eq_true, if_false]
        split
        · calc ((entries.take 8).filterMap (mkEntryItem tk now)).length
              ≤ (entries.take 8).length := List.length_filterMap_le _ _
            _ ≤ 8 := by rw [List.length_take]; exact min_le_left _ _
        · simp
  · intro tk now e t l ht hl
    refine ⟨⟨some (pyStrip t), some (pyStrip l),
      some (pyStrip (e.description.getD (defaultSummaryPre ++ tk ++ defaultSummaryPost))),
      some (e.source.getD googleNewsLit), some (parseTimestamp now e.pubDate)⟩,
      ?_, ?_, ?_, ?_⟩
    · rw [mkEntryItem, ht, hl]
    · rintro (hp | hp) <;> simp [parseTimestamp, hp]
    · intro hd
      simp [hd]
    · intro hs
      simp [hs]

/-- Claim C8 witness: failure yields the empty list, a successful empty feed
respects the bound, and the per-entry fallbacks hold for an entry with only
title and link present. -/
theorem claim_C8_witness :
    fetch_breaking_news true tickA 7 FeedResult.failure = [] ∧
      (fetch_breaking_news true tickA 7 (FeedResult.success 200 [])).length ≤ 8 ∧
      ∃ itm, mkEntryItem tickA 7 feedE = some itm ∧
        ((feedE.pubDate = none ∨ feedE.pubDate = some PubDate.unparseable) →
          itm.providerPublishTime = some 7) ∧
        (feedE.description = none →
          itm.summary =
            some (pyStrip (defaultSummaryPre ++ tickA ++ defaultSummaryPost))) ∧
        (feedE.source = none → itm.publisher = some googleNewsLit) :=
  ⟨claim_C8_breaking.1 true tickA 7,
    claim_C8_breaking.2.1 true tickA 7 (FeedResult.success 200 []),
    claim_C8_breaking.2.2 tickA 7 feedE ("T".toList) ("L".toList) rfl rfl⟩

/-- Claim C9: `fetch_stock_data` returns the same `none` (the Python
`(None, None, None)` triple) for an invalid ticker, for a raising history
call, and for an empty history, so the three failure kinds are
indistinguishable from the returned value; on an invalid ticker the result
does not depend on the market data at all (validation precedes the market
call); and a raising metadata call degrades to the empty mapping while the
request still succeeds. -/
theorem claim_C9_orchestrator :
    (∀ (tk : List Char) (mv : MarketView) (b : List NewsItem),
        validate_ticker tk = false → fetch_stock_data tk mv b = none) ∧
    (∀ (tk : List Char) (mv : MarketView) (b : List NewsItem),
        mv.history = none → fetch_stock_data tk mv b = none) ∧
    (∀ (tk : List Char) (mv : MarketView) (b : List NewsItem),
        mv.history = some [] → fetch_stock_data tk mv b = none) ∧
    (∀ (tk : List Char) (mv mv' : MarketView) (b b' : List NewsItem),
        validate_ticker tk = false →
        fetch_stock_data tk mv b = fetch_stock_data tk mv' b') ∧
    (∀ (tk : List Char) (mv : MarketView) (b : List NewsItem) (bars : List ℚ),
        validate_ticker tk = true → mv.history = some bars → bars ≠ [] →
        fetch_stock_data tk mv b =
          some (bars, mv.info.getD [], rankNews ((mv.newsA.getD []).take 10) b)) := by
  have hfail : ∀ (tk : List Char) (mv : MarketView) (b : List NewsItem),
      validate_ticker tk = false → fetch_stock_data tk mv b = none := by
    intro tk mv b h
    rw [fetch_stock_data, h]
    rfl
  refine ⟨hfail, ?_, ?_, ?_, ?_⟩
  · intro tk mv b h
    rw [fetch_stock_data, h]
    cases validate_ticker tk <;> rfl
  · intro tk mv b h
    rw [fetch_stock_data, h]
    cases validate_ticker tk <;> rfl
  · intro tk mv mv' b b' h
    rw [hfail tk mv b h, hfail tk mv' b' h]
  · intro tk mv b bars hv hh hne
    rw [fetch_stock_data, hv, hh]
    have hie : bars.isEmpty = false := by
      rw [List.isEmpty_eq_false]
      exact hne
    simp [hie]

/-- Claim C9 witness: each part applied at concrete collaborator behaviours. -/
theorem claim_C9_witness :
    fetch_stock_data ("x!".toList) mvRaise [] = none ∧
      fetch_stock_data ("AAPL".toList) mvRaise [] = none ∧
      fetch_stock_data ("AAPL".toList) ⟨some [], none, none⟩ [] = none ∧
      fetch_stock_data ("x!".toList) mvRaise [] =
        fetch_stock_data ("x!".toList) mvGood [] ∧
      fetch_stock_data ("AAPL".toList) mvGood [] =
        some ([3], mvGood.info.getD [],
          rankNews ((mvGood.newsA.getD []).take 10) []) :=
  ⟨claim_C9_orchestrator.1 _ mvRaise [] (by with_unfolding_all decide),
    claim_C9_orchestrator.2.1 _ mvRaise [] rfl,
    claim_C9_orchestrator.2.2.1 _ ⟨some [], none, none⟩ [] rfl,
    claim_C9_orchestrator.2.2.2.1 _ mvRaise mvGood [] []
      (by with_unfolding_all decide),
    claim_C9_orchestrator.2.2.2.2 _ mvGood [] [3]
      (by with_unfolding_all decide) rfl (by with_unfolding_all decide)⟩

/-- Claim C10: every item returned by adapter B has all five fields (title,
link, summary, publisher, providerPublishTime) present: a feed entry lacking
a title or link element produces no item at all, and every constructed item
fills the remaining three fields with fallbacks when absent. -/
theorem claim_C10_fields :
    (∀ (avail : Bool) (tk : List Char) (now : ℚ) (resp : FeedResult),
        ∀ itm ∈ fetch_breaking_news avail tk now resp,
          itm.title.isSome = true ∧ itm.link.isSome = true ∧
            itm.summary.isSome = true ∧ itm.publisher.isSome = true ∧
            itm.providerPublishTime.isSome = true) ∧
    (∀ (tk : List Char) (now : ℚ) (e : FeedEntry),
        e.title = none ∨ e.link = none → mkEntryItem tk now e = none) := by
  constructor
  · intro avail tk now resp itm hmem
    cases avail with
    | false => simp [fetch_breaking_news] at hmem
    | true =>
      cases resp with
      | failure => simp [fetch_breaking_news] at hmem
      | success status entries =>
        rw [fetch_breaking_news] at hmem
        simp only [Bool.not_true, Bool.false_eq_true, if_false] at hmem
        by_cases hst : status = 200
        · rw [if_pos hst] at hmem
          obtain ⟨e, _, hmk⟩ := List.mem_filterMap.mp hmem
          cases ht : e.title with
          | none => simp [mkEntryItem, ht] at hmk
          | some t =>
            cases hlk : e.link with
            | none =>
              rw [mkEntryItem, ht, hlk] at hmk
              exact Option.noConfusion hmk
            | some l =>
              rw [mkEntryItem, ht, hlk] at hmk
              have := Option.some_inj.mp hmk
              subst this
              exact ⟨rfl, rfl, rfl, rfl, rfl⟩
        · rw [if_neg hst] at hmem
          exact absurd hmem (List.not_mem_nil itm)
  · intro tk now e h
    rcases h with h | h
    · cases hl : e.link <;> rw [mkEntryItem, h, hl]
    · cases ht : e.title with
      | none => cases hl : e.link <;> rw [mkEntryItem, ht, hl]
      | some t => rw [mkEntryItem, ht, h]

/-- Claim C10 witness: the field-presence part applied to the item produced
from a title-and-link-only entry, and the drop rule applied to an entry
without a title. -/
theorem claim_C10_witness :
    (itmT.title.isSome = true ∧ itmT.link.isSome = true ∧
        itmT.summary.isSome = true ∧ itmT.publisher.isSome = true ∧
        itmT.providerPublishTime.isSome = true) ∧
      mkEntryItem tickA 7 ⟨none, some ("L".toList), none, none, none⟩ = none :=
  ⟨claim_C10_fields.1 true tickA 7 (FeedResult.success 200 [feedE]) itmT
      (by with_unfolding_all decide),
    claim_C10_fields.2 tickA 7 ⟨none, some ("L".toList), none, none, none⟩
      (Or.inl rfl)⟩
